import Mathlib

/-!
Shallow embedding of `src/static_files_handler.rs` (the static-file
middleware of nickel.rs) and proofs about it.

Modelling conventions:
* Rust strings and paths are byte lists (`List Nat`, each entry < 256 for
  genuine byte data); on Unix a `Path` is exactly its bytes.
* `std::path::Path::components()` on Unix is embedded as `pathComponents`,
  following the component parser of the Rust standard library: a leading
  separator yields `RootDir`; a leading `.` segment (when there is no root)
  yields `CurDir`; every other `.` segment and every empty segment is
  normalized away; `..` yields `ParentDir`; anything else is `Normal`.
  The Windows-only prefix component is kept in the `Component` type (the
  wildcard match arm of the source covers it) but is never produced on Unix.
* `percent_encoding::percent_decode(...).decode_utf8()` is embedded as
  `percent_decode`: byte-level decoding of well-formed `%XX` escapes
  (malformed escapes are passed through verbatim, as the crate does),
  followed by UTF-8 validation mirroring `core::str::from_utf8`.
* `fs::metadata` is a parameter `fs : List Nat → MetadataResult`; the
  functions additionally return the list of paths probed, so that
  "the filesystem is never touched" is a statement about that log.
* The panic of the byte-slice expression `&path[1..]` (out of bounds on an
  empty string, or byte 1 not a char boundary) is modelled by the
  `Except Panicked` result of `extract_path` and `invoke`.
* The `format!`-built diagnostic strings are abstracted into the `ErrMsg`
  inductive, whose constructors carry exactly the data interpolated into
  the corresponding source string.
-/

deriving instance DecidableEq for Except

namespace NickelStatic

/-- Byte list of an ASCII string literal (all our literals are ASCII, so the
code point of each character is its single UTF-8 byte). -/
def asciiBytes (s : String) : List Nat :=
  s.data.map Char.toNat

/-- Rust `std::path::Component`. `platformPre` is the Windows-only
`Component::Prefix`; the Unix parser below never produces it, but the wildcard
arm of the source in `safe_path` covers it, so it is kept in the type. -/
inductive Component where
  | rootDir
  | curDir
  | parentDir
  | normal (name : List Nat)
  | platformPre (p : List Nat)
deriving DecidableEq

/-- Split a byte list on the separator byte `/` (47), keeping empty pieces,
like splitting a Unix path into its slash-separated segments. -/
def splitOnSlash : List Nat → List (List Nat)
  | [] => [[]]
  | b :: rest =>
    if b = 47 then [] :: splitOnSlash rest
    else
      match splitOnSlash rest with
      | [] => [[b]]
      | g :: gs => (b :: g) :: gs

/-- Rust `components::parse_single_component` on Unix: empty segments and `.`
segments are normalized away, `..` is `ParentDir`, the rest is `Normal`. -/
def parse_single_component (c : List Nat) : Option Component :=
  if c = [] then none
  else if c = [46] then none
  else if c = [46, 46] then some Component.parentDir
  else some (Component.normal c)

/-- Rust `Path::has_root` on Unix: the path begins with a separator. -/
def hasRoot : List Nat → Bool
  | 47 :: _ => true
  | _ => false

/-- Rust `components::include_cur_dir`: a `CurDir` component is emitted only
when the path has no root and begins with `.` followed by nothing or by a
separator. -/
def includeCurDir (bs : List Nat) : Bool :=
  if hasRoot bs then false
  else
    match bs with
    | [46] => true
    | 46 :: 47 :: _ => true
    | _ => false

/-- Rust `Path::components()` on Unix, assembled from the pieces above. -/
def pathComponents (bs : List Nat) : List Component :=
  (if hasRoot bs then [Component.rootDir] else [])
    ++ (if includeCurDir bs then [Component.curDir] else [])
    ++ (splitOnSlash bs).filterMap parse_single_component

/-- Source `fn safe_path` (lines 101-109): every component must match the
whitelist `Component::CurDir | Component::Normal(_)`; anything else makes the
path unsafe. -/
def safe_path (bs : List Nat) : Bool :=
  (pathComponents bs).all fun c =>
    match c with
    | Component.curDir => true
    | Component.normal _ => true
    | _ => false

/-- `char::to_digit(16)` on a byte: hex digit value of `0-9`, `A-F`, `a-f`. -/
def from_hex (b : Nat) : Option Nat :=
  if 48 ≤ b ∧ b ≤ 57 then some (b - 48)
  else if 65 ≤ b ∧ b ≤ 70 then some (b - 55)
  else if 97 ≤ b ∧ b ≤ 102 then some (b - 87)
  else none

/-- Byte-level scan of `percent_encoding::percent_decode`: a `%` (37) followed
by two hex digits decodes to the denoted byte; a `%` not followed by two hex
digits is emitted verbatim and scanning resumes right after it. -/
def percentDecodeBytes : List Nat → List Nat
  | [] => []
  | 37 :: h :: l :: rest2 =>
    match from_hex h, from_hex l with
    | some hi, some lo => (hi * 16 + lo) :: percentDecodeBytes rest2
    | _, _ => 37 :: percentDecodeBytes (h :: l :: rest2)
  | b :: rest => b :: percentDecodeBytes rest

/-- Continuation byte `0x80-0xBF`. -/
def isCont (b : Nat) : Bool :=
  decide (0x80 ≤ b ∧ b ≤ 0xBF)

/-- UTF-8 validity of a byte list, mirroring the validation
automaton of `core::str::from_utf8` (shortest-form encodings only, surrogates excluded,
code points at most `U+10FFFF`). -/
def isValidUtf8 : List Nat → Bool
  | [] => true
  | b :: rest =>
    if b ≤ 0x7F then isValidUtf8 rest
    else if 0xC2 ≤ b ∧ b ≤ 0xDF then
      match rest with
      | c1 :: rest2 => isCont c1 && isValidUtf8 rest2
      | [] => false
    else if 0xE0 ≤ b ∧ b ≤ 0xEF then
      match rest with
      | c1 :: c2 :: rest3 =>
        (if b = 0xE0 then decide (0xA0 ≤ c1 ∧ c1 ≤ 0xBF)
         else if b = 0xED then decide (0x80 ≤ c1 ∧ c1 ≤ 0x9F)
         else isCont c1) && isCont c2 && isValidUtf8 rest3
      | _ => false
    else if 0xF0 ≤ b ∧ b ≤ 0xF4 then
      match rest with
      | c1 :: c2 :: c3 :: rest4 =>
        (if b = 0xF0 then decide (0x90 ≤ c1 ∧ c1 ≤ 0xBF)
         else if b = 0xF4 then decide (0x80 ≤ c1 ∧ c1 ≤ 0x8F)
         else isCont c1) && isCont c2 && isCont c3 && isValidUtf8 rest4
      | _ => false
    else false

/-- Marker for `std::str::Utf8Error` (the error type of `decode_utf8`). -/
inductive Utf8Error where
  | invalidUtf8
deriving DecidableEq

/-- Source `StaticFilesHandler::percent_decode` (lines 74-76):
`percent_encoding::percent_decode(path.as_bytes()).decode_utf8()`. -/
def percent_decode (bs : List Nat) : Except Utf8Error (List Nat) :=
  let d := percentDecodeBytes bs
  if isValidUtf8 d then Except.ok d else Except.error Utf8Error.invalidUtf8

/-- Rust `PathBuf::join` on Unix: an absolute argument replaces the buffer;
otherwise a separator is inserted unless the buffer is empty or already ends
with one. -/
def pathJoin (root p : List Nat) : List Nat :=
  if hasRoot p then p
  else if root = [] then p
  else if root.getLast? = some 47 then root ++ p
  else root ++ 47 :: p

/-- HTTP method view, as the source matches it: `Get | Head` vs everything
else. -/
inductive Method where
  | get
  | head
  | other
deriving DecidableEq

/-- Request view: method and `path_without_query()` (the collaborator-supplied
URL path with the query already stripped, absent when unavailable). -/
structure Request where
  method : Method
  path_without_query : Option (List Nat)
deriving DecidableEq

/-- Source `struct StaticFilesHandler` (lines 18-21): the single `root_path`
attribute, set at construction. -/
structure StaticFilesHandler where
  root_path : List Nat
deriving DecidableEq

/-- Source `StaticFilesHandler::new` (lines 57-61). -/
def StaticFilesHandler.new (root : List Nat) : StaticFilesHandler :=
  { root_path := root }

/-- A Rust panic raised by the byte-slice expression `&path[1..]`. -/
inductive Panicked where
  | byteIndexError
deriving DecidableEq

/-- Rust `&path[1..]` on a `&str`: `none` models the panic (index 1 out of
bounds for the empty string, or byte 1 inside a multi-byte character). -/
def sliceFromOne : List Nat → Option (List Nat)
  | [] => none
  | [_] => some []
  | _ :: c :: rest => if isCont c then none else some (c :: rest)

/-- `str::is_char_boundary(1)`: the string is nonempty and either has length
one or its second byte is not a continuation byte. -/
def charBoundaryAtOne : List Nat → Bool
  | [] => false
  | [_] => true
  | _ :: c :: _ => !isCont c

/-- Source `StaticFilesHandler::extract_path` (lines 63-72): map the available
path, sending `"/"` to `"index.html"` and anything else to `&path[1..]`. -/
def extract_path (req : Request) : Except Panicked (Option (List Nat)) :=
  match req.path_without_query with
  | none => Except.ok none
  | some p =>
    if p = [47] then Except.ok (some (asciiBytes ("index.html")))
    else
      match sliceFromOne p with
      | some t => Except.ok (some t)
      | none => Except.error Panicked.byteIndexError

/-- The only status code this source unit produces: `StatusCode::BadRequest`. -/
inductive StatusCode where
  | badRequest
deriving DecidableEq

/-- Diagnostic messages, abstracting the `format!`/`to_string` strings by the
data they interpolate: `decodeError e` is `e.to_string()` and `pathDenied p`
is the formatted path-denied message interpolating `p`. -/
inductive ErrMsg where
  | decodeError (e : Utf8Error)
  | pathDenied (path : List Nat)
deriving DecidableEq

/-- Resolution outcome: `serve` is `res.send_file(path)`, `passThrough` is
`res.next_middleware()`, `reject` is `res.error` / `NickelError::new`. -/
inductive Outcome where
  | serve (path : List Nat)
  | passThrough
  | reject (code : StatusCode) (msg : ErrMsg)
deriving DecidableEq

/-- Result of the `fs::metadata` probe, as the source distinguishes it:
`Ok` with `is_file()`, `Ok` without, `Err` of kind `NotFound`, any other
`Err`. -/
inductive MetadataResult where
  | okFile
  | okNotFile
  | errNotFound
  | errOther
deriving DecidableEq

/-- Source `StaticFilesHandler::with_file` (lines 78-97): reject unsafe paths
with `BadRequest`, otherwise join onto `root_path`, probe the metadata once,
serve plain files and pass everything else through. The second projection is
the log of filesystem paths probed. -/
def with_file (h : StaticFilesHandler) (fs : List Nat → MetadataResult)
    (path : List Nat) : Outcome × List (List Nat) :=
  if safe_path path = false then
    (Outcome.reject StatusCode.badRequest (ErrMsg.pathDenied path), [])
  else
    let joined := pathJoin h.root_path path
    match fs joined with
    | MetadataResult.okFile => (Outcome.serve joined, [joined])
    | MetadataResult.errOther => (Outcome.passThrough, [joined])
    | _ => (Outcome.passThrough, [joined])

/-- Source `Middleware::invoke` (lines 24-41): gate on `Get | Head`, extract
the path, percent-decode it (decode failure is `BadRequest`), then resolve
through `with_file`; any other method passes through. -/
def invoke (h : StaticFilesHandler) (fs : List Nat → MetadataResult)
    (req : Request) : Except Panicked (Outcome × List (List Nat)) :=
  match req.method with
  | Method.get | Method.head =>
    match extract_path req with
    | Except.error pc => Except.error pc
    | Except.ok none => Except.ok (Outcome.passThrough, [])
    | Except.ok (some path) =>
      match percent_decode path with
      | Except.ok decoded => Except.ok (with_file h fs decoded)
      | Except.error e =>
        Except.ok (Outcome.reject StatusCode.badRequest (ErrMsg.decodeError e), [])
  | Method.other => Except.ok (Outcome.passThrough, [])

/-- Is a hex digit in the sense of `from_hex`. -/
def isHexDigitByte (b : Nat) : Bool :=
  (from_hex b).isSome

/-- Does the byte list begin with a well-formed escape `%XX`? -/
def escapeHead : List Nat → Bool
  | 37 :: h :: l :: _ => isHexDigitByte h && isHexDigitByte l
  | _ => false

/-- Is there a well-formed escape `%XX` starting at byte offset `i`? -/
def escapeTripleAt (bs : List Nat) (i : Nat) : Bool :=
  escapeHead (bs.drop i)

theorem escapeTripleAt_cons (b : Nat) (bs : List Nat) (i : Nat) :
    escapeTripleAt (b :: bs) (i + 1) = escapeTripleAt bs i := by
  simp [escapeTripleAt, List.drop_succ_cons]

theorem percentDecodeBytes_id (bs : List Nat)
    (H : ∀ i, i < bs.length → escapeTripleAt bs i = false) :
    percentDecodeBytes bs = bs := by
  induction bs with
  | nil => rfl
  | cons b rest ih =>
    have hrest : ∀ i, i < rest.length → escapeTripleAt rest i = false := by
      intro i hi
      have hs := H (i + 1) (by simp [List.length_cons]; omega)
      rwa [escapeTripleAt_cons] at hs
    have hih := ih hrest
    rw [percentDecodeBytes.eq_def]
    split
    · rename_i heq
      exact absurd heq (by simp)
    · rename_i h1 l1 r2 heq
      injection heq with hb hr
      subst hb
      subst hr
      have h0 := H 0 (by simp)
      simp only [escapeTripleAt, List.drop_zero, escapeHead] at h0
      cases hh : from_hex h1 with
      | none => simp [hh, hih]
      | some v1 =>
        cases hl : from_hex l1 with
        | none => simp [hh, hl, hih]
        | some v2 =>
          exfalso
          simp [isHexDigitByte, hh, hl] at h0
    · rename_i bb rr hside heq
      injection heq with hb hr
      subst hb
      subst hr
      rw [hih]

theorem with_file_outcome_shape (h : StaticFilesHandler)
    (fs : List Nat → MetadataResult) (d : List Nat) :
    (with_file h fs d).1 = Outcome.passThrough
    ∨ (∃ q, (with_file h fs d).1 = Outcome.serve q)
    ∨ (∃ m, (with_file h fs d).1 = Outcome.reject StatusCode.badRequest m) := by
  by_cases hs : safe_path d = false
  · right; right
    exact ⟨ErrMsg.pathDenied d, by simp [with_file, hs]⟩
  · cases hfs : fs (pathJoin h.root_path d) with
    | okFile =>
      right; left
      exact ⟨pathJoin h.root_path d, by simp [with_file, hs, hfs]⟩
    | okNotFile => left; simp [with_file, hs, hfs]
    | errNotFound => left; simp [with_file, hs, hfs]
    | errOther => left; simp [with_file, hs, hfs]

theorem sliceFromOne_isSome_of_charBoundary (p : List Nat)
    (hb : charBoundaryAtOne p = true) : ∃ t, sliceFromOne p = some t := by
  match p with
  | [] => simp [charBoundaryAtOne] at hb
  | [b] => exact ⟨[], rfl⟩
  | b :: c :: rest =>
    simp [charBoundaryAtOne] at hb
    exact ⟨c :: rest, by simp [sliceFromOne, hb]⟩

/-- C1: `safe_path` classifies a path safe exactly when every one of its
filesystem components is the current-directory marker or a normal named
segment; a parent-directory, root, or platform-prefix component anywhere in
the component list makes the path unsafe. -/
theorem c1_safe_path_component_whitelist (bs : List Nat) :
    (safe_path bs = true ↔
      ∀ c ∈ pathComponents bs, c = Component.curDir ∨ ∃ n, c = Component.normal n)
    ∧ (Component.parentDir ∈ pathComponents bs → safe_path bs = false)
    ∧ (Component.rootDir ∈ pathComponents bs → safe_path bs = false)
    ∧ (∀ p, Component.platformPre p ∈ pathComponents bs → safe_path bs = false) := by
  have key : safe_path bs = true ↔
      ∀ c ∈ pathComponents bs, c = Component.curDir ∨ ∃ n, c = Component.normal n := by
    simp only [safe_path, List.all_eq_true]
    constructor
    · intro hall c hc
      have hx := hall c hc
      cases c with
      | curDir => exact Or.inl rfl
      | normal n => exact Or.inr ⟨n, rfl⟩
      | rootDir => simp at hx
      | parentDir => simp at hx
      | platformPre p => simp at hx
    · intro hall c hc
      rcases hall c hc with h1 | ⟨n, h2⟩
      · rw [h1]
      · rw [h2]
  have notSafeOf : ∀ c ∈ pathComponents bs,
      (c = Component.curDir ∨ (∃ n, c = Component.normal n) → False) →
      safe_path bs = false := by
    intro c hc hbad
    cases hs : safe_path bs with
    | false => rfl
    | true => exact absurd ((key.mp hs) c hc) hbad
  refine ⟨key, ?_, ?_, ?_⟩
  · intro hmem
    exact notSafeOf _ hmem (by rintro (h | ⟨n, h⟩) <;> simp at h)
  · intro hmem
    exact notSafeOf _ hmem (by rintro (h | ⟨n, h⟩) <;> simp at h)
  · intro p hmem
    exact notSafeOf _ hmem (by rintro (h | ⟨n, h⟩) <;> simp at h)

theorem c1_safe_path_component_whitelist_witness :
    safe_path (asciiBytes ("..")) = false
    ∧ safe_path (asciiBytes ("/etc/passwd")) = false :=
  ⟨(c1_safe_path_component_whitelist (asciiBytes (".."))).2.1 (by decide),
   (c1_safe_path_component_whitelist (asciiBytes ("/etc/passwd"))).2.2.1 (by decide)⟩

/-- C10: the only failure mode of the decoder is an invalid-UTF-8 result; a byte
list with no well-formed `%XX` escape anywhere passes through the byte-level
decode verbatim, so malformed or incomplete escapes whose bytes are valid
UTF-8 (such as `%zz` or a bare trailing `%`) decode successfully to
themselves. -/
theorem c10_percent_decode_only_utf8_failure :
    (∀ bs : List Nat, (∀ i, i < bs.length → escapeTripleAt bs i = false) →
      percentDecodeBytes bs = bs)
    ∧ (∀ bs : List Nat, (∀ i, i < bs.length → escapeTripleAt bs i = false) →
      isValidUtf8 bs = true → percent_decode bs = Except.ok bs)
    ∧ (∀ (bs : List Nat) (e : Utf8Error), percent_decode bs = Except.error e →
      e = Utf8Error.invalidUtf8 ∧ isValidUtf8 (percentDecodeBytes bs) = false)
    ∧ percent_decode (asciiBytes ("%zz")) = Except.ok (asciiBytes ("%zz"))
    ∧ percent_decode ([37]) = Except.ok ([37]) := by
  refine ⟨percentDecodeBytes_id, ?_, ?_, by decide, by decide⟩
  · intro bs H hv
    have hid := percentDecodeBytes_id bs H
    simp [percent_decode, hid, hv]
  · intro bs e he
    cases hv : isValidUtf8 (percentDecodeBytes bs) with
    | false => exact ⟨by cases e; rfl, rfl⟩
    | true => exfalso; simp [percent_decode, hv] at he

theorem c10_percent_decode_only_utf8_failure_witness :
    percent_decode (asciiBytes ("z%qq%")) = Except.ok (asciiBytes ("z%qq%")) :=
  c10_percent_decode_only_utf8_failure.2.1 (asciiBytes ("z%qq%")) (by decide) (by decide)

/-- C2 (counterexample): for the GET request `/%zz` the percent-decode step
succeeds (the malformed escape is passed through verbatim, not rejected), the
invocation does not terminate with `Reject(BadRequest)` but passes through,
and the filesystem IS probed (the probe log holds the joined path). -/
theorem c2_counterexample :
    percent_decode (asciiBytes ("%zz")) = Except.ok (asciiBytes ("%zz"))
    ∧ invoke { root_path := asciiBytes ("root") } (fun _ => MetadataResult.errNotFound)
        { method := Method.get, path_without_query := some (asciiBytes ("/%zz")) }
      = Except.ok (Outcome.passThrough, [asciiBytes ("root/%zz")]) := by
  constructor
  · decide
  · decide

/-- C2 (amended): for every GET or HEAD request whose extracted candidate path
percent-decodes to a byte sequence that is not valid UTF-8, decoding fails
with a `Utf8Error` and the invocation terminates with `Reject(BadRequest)`
carrying that decode error, with no filesystem probe. -/
theorem c2_invalid_utf8_decode_rejected (h : StaticFilesHandler)
    (fs : List Nat → MetadataResult) (req : Request) (p : List Nat)
    (hm : req.method = Method.get ∨ req.method = Method.head)
    (hp : extract_path req = Except.ok (some p))
    (hd : isValidUtf8 (percentDecodeBytes p) = false) :
    invoke h fs req =
      Except.ok
        (Outcome.reject StatusCode.badRequest (ErrMsg.decodeError Utf8Error.invalidUtf8),
         []) := by
  have hpd : percent_decode p = Except.error Utf8Error.invalidUtf8 := by
    simp [percent_decode, hd]
  rcases hm with hm | hm <;> simp [invoke, hm, hp, hpd]

theorem c2_invalid_utf8_decode_rejected_witness :
    invoke { root_path := asciiBytes ("root") } (fun _ => MetadataResult.okFile)
        { method := Method.get, path_without_query := some (asciiBytes ("/%ff")) }
      = Except.ok
          (Outcome.reject StatusCode.badRequest (ErrMsg.decodeError Utf8Error.invalidUtf8),
           []) :=
  c2_invalid_utf8_decode_rejected { root_path := asciiBytes ("root") }
    (fun _ => MetadataResult.okFile)
    { method := Method.get, path_without_query := some (asciiBytes ("/%ff")) }
    (asciiBytes ("%ff")) (Or.inl rfl) (by decide) (by decide)

/-- C3: a decoded path that `safe_path` classifies unsafe resolves to
`Reject(BadRequest)` with a diagnostic naming the offending path, both at the
`with_file` level and for the whole invocation, and the filesystem probe log
is empty. -/
theorem c3_denied_path_rejected_without_probe (h : StaticFilesHandler)
    (fs : List Nat → MetadataResult) (req : Request) (p d : List Nat)
    (hm : req.method = Method.get ∨ req.method = Method.head)
    (hp : extract_path req = Except.ok (some p))
    (hd : percent_decode p = Except.ok d)
    (hs : safe_path d = false) :
    with_file h fs d = (Outcome.reject StatusCode.badRequest (ErrMsg.pathDenied d), [])
    ∧ invoke h fs req =
      Except.ok (Outcome.reject StatusCode.badRequest (ErrMsg.pathDenied d), []) := by
  have hwf : with_file h fs d
      = (Outcome.reject StatusCode.badRequest (ErrMsg.pathDenied d), []) := by
    simp [with_file, hs]
  refine ⟨hwf, ?_⟩
  rcases hm with hm | hm <;> simp [invoke, hm, hp, hd, hwf]

theorem c3_denied_path_rejected_without_probe_witness :
    invoke { root_path := asciiBytes ("root") } (fun _ => MetadataResult.okFile)
        { method := Method.get, path_without_query := some (asciiBytes ("/%2e%2e/secret.txt")) }
      = Except.ok
          (Outcome.reject StatusCode.badRequest
            (ErrMsg.pathDenied (asciiBytes ("../secret.txt"))),
           []) :=
  (c3_denied_path_rejected_without_probe { root_path := asciiBytes ("root") }
    (fun _ => MetadataResult.okFile)
    { method := Method.get, path_without_query := some (asciiBytes ("/%2e%2e/secret.txt")) }
    (asciiBytes ("%2e%2e/secret.txt")) (asciiBytes ("../secret.txt"))
    (Or.inl rfl) (by decide) (by decide) (by decide)).2

/-- C4: for a validated-safe path joined onto the root, the outcome is decided
by a single metadata probe of the joined path: a regular file is served and
every other probe result (not found, other error, non-file) passes through;
in each case exactly that one path is probed. -/
theorem c4_resolution_by_single_probe (h : StaticFilesHandler)
    (fs : List Nat → MetadataResult) (p : List Nat)
    (hs : safe_path p = true) :
    (fs (pathJoin h.root_path p) = MetadataResult.okFile →
      with_file h fs p = (Outcome.serve (pathJoin h.root_path p), [pathJoin h.root_path p]))
    ∧ (fs (pathJoin h.root_path p) = MetadataResult.errNotFound →
      with_file h fs p = (Outcome.passThrough, [pathJoin h.root_path p]))
    ∧ (fs (pathJoin h.root_path p) = MetadataResult.errOther →
      with_file h fs p = (Outcome.passThrough, [pathJoin h.root_path p]))
    ∧ (fs (pathJoin h.root_path p) = MetadataResult.okNotFile →
      with_file h fs p = (Outcome.passThrough, [pathJoin h.root_path p])) := by
  refine ⟨?_, ?_, ?_, ?_⟩ <;> intro hfs <;> simp [with_file, hs, hfs]

theorem c4_resolution_by_single_probe_witness :
    with_file { root_path := asciiBytes ("r") } (fun _ => MetadataResult.okFile)
        (asciiBytes ("a"))
      = (Outcome.serve (pathJoin (asciiBytes ("r")) (asciiBytes ("a"))),
         [pathJoin (asciiBytes ("r")) (asciiBytes ("a"))]) :=
  (c4_resolution_by_single_probe { root_path := asciiBytes ("r") }
    (fun _ => MetadataResult.okFile) (asciiBytes ("a")) (by decide)).1 rfl

/-- C5: the extractor maps the path `/` to the literal candidate `index.html`
and any other path to that path with exactly its one leading character
removed — single-byte removal, not a trim of all leading slashes, as the
`//foo` conjunct shows. -/
theorem c5_extract_path_candidate (req : Request) :
    (req.path_without_query = some [47] →
      extract_path req = Except.ok (some (asciiBytes ("index.html"))))
    ∧ (∀ b, req.path_without_query = some [b] → b ≠ 47 →
      extract_path req = Except.ok (some []))
    ∧ (∀ b c rest, req.path_without_query = some (b :: c :: rest) → isCont c = false →
      extract_path req = Except.ok (some (c :: rest)))
    ∧ extract_path { method := Method.get, path_without_query := some (asciiBytes ("//foo")) }
      = Except.ok (some (asciiBytes ("/foo"))) := by
  refine ⟨?_, ?_, ?_, by decide⟩
  · intro hp
    simp [extract_path, hp]
  · intro b hp hb
    simp [extract_path, hp, sliceFromOne, hb]
  · intro b c rest hp hc
    simp [extract_path, hp, sliceFromOne, hc]

theorem c5_extract_path_candidate_witness :
    extract_path { method := Method.get, path_without_query := some (asciiBytes ("/abc")) }
      = Except.ok (some (asciiBytes ("abc"))) :=
  (c5_extract_path_candidate
    { method := Method.get, path_without_query := some (asciiBytes ("/abc")) }).2.2.1
    47 97 [98, 99] (by decide) (by decide)

/-- C6: a request whose method is neither GET nor HEAD always passes through
to the next middleware, with an empty filesystem probe log, whatever the URL
path. -/
theorem c6_other_method_passes_through (h : StaticFilesHandler)
    (fs : List Nat → MetadataResult) (req : Request)
    (hm : req.method = Method.other) :
    invoke h fs req = Except.ok (Outcome.passThrough, []) := by
  simp [invoke, hm]

theorem c6_other_method_passes_through_witness :
    invoke { root_path := asciiBytes ("root") } (fun _ => MetadataResult.okFile)
        { method := Method.other, path_without_query := some (asciiBytes ("/a/b.txt")) }
      = Except.ok (Outcome.passThrough, []) :=
  c6_other_method_passes_through { root_path := asciiBytes ("root") }
    (fun _ => MetadataResult.okFile)
    { method := Method.other, path_without_query := some (asciiBytes ("/a/b.txt")) } rfl

/-- C7: with a regular file at `root/a/b.txt`, a GET request for `/a/b.txt`
resolves end to end — extraction, decoding, validation, resolution — to
`Serve` of the joined path, probing exactly that path. -/
theorem c7_end_to_end_serve (h : StaticFilesHandler)
    (fs : List Nat → MetadataResult)
    (hfile : fs (pathJoin h.root_path (asciiBytes ("a/b.txt"))) = MetadataResult.okFile) :
    invoke h fs { method := Method.get, path_without_query := some (asciiBytes ("/a/b.txt")) }
      = Except.ok
          (Outcome.serve (pathJoin h.root_path (asciiBytes ("a/b.txt"))),
           [pathJoin h.root_path (asciiBytes ("a/b.txt"))]) := by
  have h1 : extract_path
      { method := Method.get, path_without_query := some (asciiBytes ("/a/b.txt")) }
      = Except.ok (some (asciiBytes ("a/b.txt"))) := by decide
  have h2 : percent_decode (asciiBytes ("a/b.txt"))
      = Except.ok (asciiBytes ("a/b.txt")) := by decide
  have h3 : safe_path (asciiBytes ("a/b.txt")) = true := by decide
  simp [invoke, h1, h2, with_file, h3, hfile]

theorem c7_end_to_end_serve_witness :
    invoke { root_path := asciiBytes ("root") } (fun _ => MetadataResult.okFile)
        { method := Method.get, path_without_query := some (asciiBytes ("/a/b.txt")) }
      = Except.ok
          (Outcome.serve (pathJoin (asciiBytes ("root")) (asciiBytes ("a/b.txt"))),
           [pathJoin (asciiBytes ("root")) (asciiBytes ("a/b.txt"))]) :=
  c7_end_to_end_serve { root_path := asciiBytes ("root") }
    (fun _ => MetadataResult.okFile) rfl

/-- C8 (counterexample): a GET request whose collaborator-supplied path is the
empty string does not terminate in a response or a deferral: the byte-slice
expression of the extractor panics (index 1 out of bounds of the empty
string). -/
theorem c8_counterexample :
    invoke { root_path := asciiBytes ("root") } (fun _ => MetadataResult.errNotFound)
        { method := Method.get, path_without_query := some [] }
      = Except.error Panicked.byteIndexError := by
  decide

/-- C8 (amended): for every request whose method is not GET/HEAD, or whose
URL path is absent, equals `/`, or has a character boundary at byte offset 1
(in particular every path beginning with an ASCII character such as `/`), the
invocation is total: it terminates, without panic, in exactly one of a
`BadRequest` rejection, a `Serve`, or a pass-through to the next handler. -/
theorem c8_totality (h : StaticFilesHandler) (fs : List Nat → MetadataResult)
    (req : Request)
    (hp : req.method = Method.other
      ∨ req.path_without_query = none
      ∨ req.path_without_query = some [47]
      ∨ ∃ p, req.path_without_query = some p ∧ charBoundaryAtOne p = true) :
    ∃ out log, invoke h fs req = Except.ok (out, log)
      ∧ (out = Outcome.passThrough
        ∨ (∃ q, out = Outcome.serve q)
        ∨ ∃ m, out = Outcome.reject StatusCode.badRequest m) := by
  have hresolve : ∀ cand : List Nat,
      (req.method = Method.get ∨ req.method = Method.head) →
      extract_path req = Except.ok (some cand) →
      ∃ out log, invoke h fs req = Except.ok (out, log)
        ∧ (out = Outcome.passThrough
          ∨ (∃ q, out = Outcome.serve q)
          ∨ ∃ m, out = Outcome.reject StatusCode.badRequest m) := by
    intro cand hm hext
    cases hdec : percent_decode cand with
    | error e =>
      refine ⟨Outcome.reject StatusCode.badRequest (ErrMsg.decodeError e), [], ?_, ?_⟩
      · rcases hm with hm | hm <;> simp [invoke, hm, hext, hdec]
      · exact Or.inr (Or.inr ⟨ErrMsg.decodeError e, rfl⟩)
    | ok d =>
      refine ⟨(with_file h fs d).1, (with_file h fs d).2, ?_, ?_⟩
      · rcases hm with hm | hm <;> simp [invoke, hm, hext, hdec]
      · exact with_file_outcome_shape h fs d
  cases hmv : req.method with
  | other => exact ⟨Outcome.passThrough, [], by simp [invoke, hmv], Or.inl rfl⟩
  | get =>
    rcases hp with hm | hq | hq | ⟨p, hq, hb⟩
    · exact absurd (hmv ▸ hm) (by simp)
    · exact ⟨Outcome.passThrough, [], by simp [invoke, hmv, extract_path, hq], Or.inl rfl⟩
    · exact hresolve (asciiBytes ("index.html")) (Or.inl hmv)
        (by simp [extract_path, hq])
    · by_cases h47 : p = [47]
      · exact hresolve (asciiBytes ("index.html")) (Or.inl hmv)
          (by simp [extract_path, hq, h47])
      · obtain ⟨t, ht⟩ := sliceFromOne_isSome_of_charBoundary p hb
        exact hresolve t (Or.inl hmv) (by simp [extract_path, hq, h47, ht])
  | head =>
    rcases hp with hm | hq | hq | ⟨p, hq, hb⟩
    · exact absurd (hmv ▸ hm) (by simp)
    · exact ⟨Outcome.passThrough, [], by simp [invoke, hmv, extract_path, hq], Or.inl rfl⟩
    · exact hresolve (asciiBytes ("index.html")) (Or.inr hmv)
        (by simp [extract_path, hq])
    · by_cases h47 : p = [47]
      · exact hresolve (asciiBytes ("index.html")) (Or.inr hmv)
          (by simp [extract_path, hq, h47])
      · obtain ⟨t, ht⟩ := sliceFromOne_isSome_of_charBoundary p hb
        exact hresolve t (Or.inr hmv) (by simp [extract_path, hq, h47, ht])

theorem c8_totality_witness :
    ∃ out log,
      invoke { root_path := asciiBytes ("root") } (fun _ => MetadataResult.errNotFound)
        { method := Method.get, path_without_query := some (asciiBytes ("/x")) }
        = Except.ok (out, log)
      ∧ (out = Outcome.passThrough
        ∨ (∃ q, out = Outcome.serve q)
        ∨ ∃ m, out = Outcome.reject StatusCode.badRequest m) :=
  c8_totality { root_path := asciiBytes ("root") } (fun _ => MetadataResult.errNotFound)
    { method := Method.get, path_without_query := some (asciiBytes ("/x")) }
    (Or.inr (Or.inr (Or.inr ⟨asciiBytes ("/x"), rfl, by decide⟩)))

/-- C9: the path of every `Serve` outcome is `root_path` joined with a
request-derived relative path that passed validation: it decomposes as the
join of the construction-time, read-only `root_path` of the handler with the
percent-decoded extracted candidate, which `safe_path` accepted; `root_path`
itself enters the outcome only through that join, never re-derived from the
request. -/
theorem c9_serve_path_decomposition (h : StaticFilesHandler)
    (fs : List Nat → MetadataResult) (req : Request)
    (out : Outcome) (log : List (List Nat)) (pth : List Nat)
    (hinv : invoke h fs req = Except.ok (out, log))
    (hout : out = Outcome.serve pth) :
    ∃ cand rel, extract_path req = Except.ok (some cand)
      ∧ percent_decode cand = Except.ok rel
      ∧ safe_path rel = true
      ∧ pth = pathJoin h.root_path rel := by
  subst hout
  have hghead : req.method = Method.get ∨ req.method = Method.head := by
    cases hmv : req.method with
    | get => exact Or.inl rfl
    | head => exact Or.inr rfl
    | other => simp [invoke, hmv] at hinv
  cases hext : extract_path req with
  | error pc =>
    rcases hghead with hm | hm <;> simp [invoke, hm, hext] at hinv
  | ok o =>
    cases o with
    | none =>
      rcases hghead with hm | hm <;> simp [invoke, hm, hext] at hinv
    | some cand =>
      cases hdec : percent_decode cand with
      | error e =>
        rcases hghead with hm | hm <;> simp [invoke, hm, hext, hdec] at hinv
      | ok rel =>
        have hw : with_file h fs rel = (Outcome.serve pth, log) := by
          rcases hghead with hm | hm <;> simpa [invoke, hm, hext, hdec] using hinv
        by_cases hs : safe_path rel = false
        · simp [with_file, hs] at hw
        · have hstrue : safe_path rel = true := by
            revert hs
            cases safe_path rel <;> simp
          cases hfs : fs (pathJoin h.root_path rel) with
          | okFile =>
            simp only [with_file, hs, if_false, hfs] at hw
            refine ⟨cand, rel, rfl, hdec, hstrue, ?_⟩
            have := congrArg Prod.fst hw
            simpa using this.symm
          | okNotFile => simp [with_file, hs, hfs] at hw
          | errNotFound => simp [with_file, hs, hfs] at hw
          | errOther => simp [with_file, hs, hfs] at hw

theorem c9_serve_path_decomposition_witness :
    ∃ cand rel,
      extract_path { method := Method.get, path_without_query := some (asciiBytes ("/a.txt")) }
        = Except.ok (some cand)
      ∧ percent_decode cand = Except.ok rel
      ∧ safe_path rel = true
      ∧ asciiBytes ("root/a.txt")
        = pathJoin ({ root_path := asciiBytes ("root") } : StaticFilesHandler).root_path rel :=
  c9_serve_path_decomposition { root_path := asciiBytes ("root") }
    (fun _ => MetadataResult.okFile)
    { method := Method.get, path_without_query := some (asciiBytes ("/a.txt")) }
    (Outcome.serve (asciiBytes ("root/a.txt"))) [asciiBytes ("root/a.txt")]
    (asciiBytes ("root/a.txt")) (by decide) rfl

end NickelStatic
